import Mathlib

/-!
Verification of the numeric core of the vehicle-emission-analysis repository
(file `app.py`): the conversion-efficiency calculator, the resampler
(decimation), the grid construction and the scattered-data interpolation
pipeline.  Python floats are modelled as rationals (`ℚ`); the one component
that needs a square root (inverse-distance weighting, present only in the
spec, not in `app.py`) is modelled over `ℝ`.
-/

namespace VehicleEmission

/-! ## Definitions -/

/-- Maximum of two rationals, written with an explicit test so that the
kernel can evaluate it on concrete inputs. -/
def qmax (a b : ℚ) : ℚ := if a ≤ b then b else a

/-- Minimum of two rationals, written with an explicit test so that the
kernel can evaluate it on concrete inputs. -/
def qmin (a b : ℚ) : ℚ := if a ≤ b then a else b

/-- Model of `np.clip(v, lo, hi)`: `minimum(hi, maximum(lo, v))`. -/
def clip (lo hi v : ℚ) : ℚ := qmin hi (qmax lo v)

/-- The unclamped efficiency ratio `(1 - downstream/upstream) * 100`
(`app.py` line 43). -/
def rawEff (u d : ℚ) : ℚ := (1 - d / u) * 100

/-- Model of `calculate_efficiency` (`app.py` lines 37-46): start from zeros,
assign `(1 - d/u) * 100` where `upstream > 0 ∧ downstream >= 0`
(`valid_mask`), then clip the whole array to `[0, 100]`.  The two input
sequences are paired index-wise. -/
def calculate_efficiency (up down : List ℚ) : List ℚ :=
  (up.zip down).map (fun p => clip 0 100 (if 0 < p.1 ∧ 0 ≤ p.2 then rawEff p.1 p.2 else 0))

/-- Helper for `decimate`: `decimateAux k l c` keeps the elements of `l` at
offsets `c, c + k, c + 2k, …` (the counter `c` counts down to the next kept
element). -/
def decimateAux {α : Type} (k : ℕ) : List α → ℕ → List α
  | [], _ => []
  | x :: xs, 0 => x :: decimateAux k xs (k - 1)
  | _ :: xs, c + 1 => decimateAux k xs c

/-- Model of the stride-`k` slice `series[::k]` (`app.py` line 146 uses
`df.iloc[::10, :]`, i.e. `k = 10`): keep every `k`-th sample starting at
index 0, in the original order. -/
def decimate {α : Type} (l : List α) (k : ℕ) : List α := decimateAux k l 0

/-- Grid resolution hard-coded in `create_3d_surface` (`app.py` lines 52-53:
`np.linspace(min(flow), max(flow), 50)`). -/
def gridSize : ℕ := 50

/-- Model of `np.linspace(a, b, n)` (endpoint included): sample `i` is
`a + (b - a) * i / (n - 1)`. -/
def linspace (a b : ℚ) (n : ℕ) : List ℚ :=
  (List.range n).map (fun i : ℕ => a + (b - a) * (i : ℚ) / ((n : ℚ) - 1))

/-- Model of Python `min(seq)` on a non-empty sequence (`0` as an arbitrary
default on the empty sequence, where Python would raise). -/
def pyMin : List ℚ → ℚ
  | [] => 0
  | x :: xs => xs.foldl qmin x

/-- Model of Python `max(seq)` on a non-empty sequence (`0` as an arbitrary
default on the empty sequence, where Python would raise). -/
def pyMax : List ℚ → ℚ
  | [] => 0
  | x :: xs => xs.foldl qmax x

/-- The three interpolation policies the spec names for the Grid
Interpolator (`app.py` only ever passes `method='linear'` to `griddata`). -/
inductive Method where
  | nearestIdw
  | linear
  | cubic

/-- Grid axis construction of `create_3d_surface` (`app.py` lines 52-54):
`gridSize` evenly spaced samples from the axis minimum to the axis
maximum. -/
def gridAxis (vals : List ℚ) : List ℚ := linspace (pyMin vals) (pyMax vals) gridSize

/-- Axis construction as a function of the interpolation method: the code
builds the grid (lines 52-54) before the `griddata` call dispatches on the
method (line 61), so every method uses the same construction. -/
def interpolateAxis (m : Method) (vals : List ℚ) : List ℚ :=
  match m with
  | .nearestIdw => gridAxis vals
  | .linear => gridAxis vals
  | .cubic => gridAxis vals

/-- A scatter point fed to interpolation: `x` = flow, `y` = catalyst
temperature, `z` = efficiency. -/
structure P3 where
  x : ℚ
  y : ℚ
  z : ℚ

/-- The planar position of a scatter point. -/
def P3.xy (p : P3) : ℚ × ℚ := (p.x, p.y)

/-- Twice the signed area of the triangle `(o, a, b)` (cross product of
`a - o` and `b - o`). -/
def cross (o a b : ℚ × ℚ) : ℚ := (a.1 - o.1) * (b.2 - o.2) - (a.2 - o.2) * (b.1 - o.1)

/-- All ordered triples of elements of a list. -/
def triples {α : Type} (l : List α) : List (α × α × α) :=
  l.flatMap (fun a => l.flatMap (fun b => l.map (fun c => (a, b, c))))

/-- Whether Qhull can build a Delaunay triangulation of the points: some
triple must be affinely independent (at least 3 distinct non-collinear
points).  `scipy.interpolate.griddata` with `method='linear'` raises
`QhullError` exactly when this fails. -/
def hasTriangulation (pts : List (ℚ × ℚ)) : Bool :=
  (triples pts).any (fun t => decide (cross t.1 t.2.1 t.2.2 ≠ 0))

/-- Whether `c` lies in the closed axis-aligned bounding box of `p, q, r`. -/
def inBbox (p q r c : ℚ × ℚ) : Bool :=
  decide (min p.1 (min q.1 r.1) ≤ c.1) && decide (c.1 ≤ max p.1 (max q.1 r.1)) &&
  decide (min p.2 (min q.2 r.2) ≤ c.2) && decide (c.2 ≤ max p.2 (max q.2 r.2))

/-- Whether `c` is on one weak side of all three directed edges of the
triangle `(p, q, r)` (the standard sign test for closed-triangle
membership). -/
def sameSide (p q r c : ℚ × ℚ) : Bool :=
  (decide (0 ≤ cross p q c) && decide (0 ≤ cross q r c) && decide (0 ≤ cross r p c)) ||
  (decide (cross p q c ≤ 0) && decide (cross q r c ≤ 0) && decide (cross r p c ≤ 0))

/-- Membership of `c` in the convex hull of the three points `p, q, r`
(the bounding-box conjunct makes the sign test exact also for degenerate
triples). -/
def inTriangle (p q r c : ℚ × ℚ) : Bool := sameSide p q r c && inBbox p q r c

/-- Membership of `c` in the convex hull of the point list: by
Carathéodory's theorem in the plane, `c` is in the hull iff it is in the
hull of some triple of the points. -/
def inHull (pts : List (ℚ × ℚ)) (c : ℚ × ℚ) : Bool :=
  (triples pts).any (fun t => inTriangle t.1 t.2.1 t.2.2 c)

/-- First affinely independent triple of scatter points whose closed
triangle contains `c` (the piecewise-linear model picks its containing
triangle this way; which triangulation `scipy` uses does not matter for
the properties proved here). -/
def findTriangle (pts : List P3) (c : ℚ × ℚ) : Option (P3 × P3 × P3) :=
  (triples pts).find? (fun t =>
    decide (cross t.1.xy t.2.1.xy t.2.2.xy ≠ 0) && inTriangle t.1.xy t.2.1.xy t.2.2.xy c)

/-- Barycentric (piecewise-linear) interpolation of the `z` values of the
triangle `(a, b, c)` at the point `pt`. -/
def baryValue (a b c : P3) (pt : ℚ × ℚ) : ℚ :=
  (cross pt b.xy c.xy * a.z + cross a.xy pt c.xy * b.z + cross a.xy b.xy pt * c.z) /
    cross a.xy b.xy c.xy

/-- Value of the interpolated surface at one grid cell: linear
interpolation inside the scatter's triangulation, `fill` outside
(`griddata(..., fill_value=fill)`). -/
def cellValue (pts : List P3) (fill : ℚ) (c : ℚ × ℚ) : ℚ :=
  match findTriangle pts c with
  | some t => baryValue t.1 t.2.1 t.2.2 c
  | none => fill

/-- Model of `scipy.interpolate.griddata((flow, temp), eff, (xi, yi),
method='linear', fill_value=fill)` (`app.py` lines 57-63): fails like
`QhullError` when no triangulation exists, otherwise produces one value
per grid cell. -/
def griddataLinear (pts : List P3) (cells : List (ℚ × ℚ)) (fill : ℚ) : Except Unit (List ℚ) :=
  if hasTriangulation (pts.map P3.xy) then Except.ok (cells.map (cellValue pts fill))
  else Except.error ()

/-- The scatter cloud built from the three parallel columns. -/
def mkCloud (flow temp eff : List ℚ) : List P3 :=
  (flow.zip (temp.zip eff)).map (fun p => ⟨p.1, p.2.1, p.2.2⟩)

/-- The flattened list of grid cells of the `meshgrid` of the two grid
axes (`app.py` lines 52-54). -/
def gridCells (flow temp : List ℚ) : List (ℚ × ℚ) :=
  (gridAxis temp).flatMap (fun yv => (gridAxis flow).map (fun xv => (xv, yv)))

/-- Model of `create_3d_surface` (`app.py` lines 49-63) up to the surface
values: build the grid from the cloud and interpolate with
`method='linear'`, `fill_value=0`. -/
def create3dSurfaceZ (flow temp eff : List ℚ) : Except Unit (List ℚ) :=
  griddataLinear (mkCloud flow temp eff) (gridCells flow temp) 0

/-- Model of `main`'s per-pollutant surface sequence (`app.py` lines
137-227): the three pollutants share the same flow/temperature columns and
their three `create_3d_surface` calls run sequentially inside one single
`try`/`except` block, so the first raised exception is caught at file
level (`Except.error` = the reported `st.error` message) and no output is
produced for the remaining pollutants. -/
def mainProcess (flow temp effCO effTHC effNOx : List ℚ) : Except Unit (List (List ℚ)) := do
  let g1 ← create3dSurfaceZ flow temp effCO
  let g2 ← create3dSurfaceZ flow temp effTHC
  let g3 ← create3dSurfaceZ flow temp effNOx
  pure [g1, g2, g3]

/-- Mean of a rational sequence (`pandas.Series.mean`). -/
def mean (l : List ℚ) : ℚ := l.sum / (l.length : ℚ)

/-- The per-pollutant outputs of `main`: the efficiency column, the
surface grid, and the three displayed summary statistics. -/
structure MainOutput where
  eff : List ℚ
  grid : Except Unit (List ℚ)
  meanStat : ℚ
  maxStat : ℚ
  minStat : ℚ

/-- Model of `main`'s per-pollutant dataflow (`app.py` lines 146-181): the
table is decimated with stride 10 first (line 146), the efficiency column
is computed from the decimated table (line 153), the surface is built from
the decimated flow/temperature columns (line 169), and the displayed
mean/max/min statistics (lines 179-181) are taken from that same
decimated efficiency column. -/
def mainPollutant (flow temp up down : List ℚ) : MainOutput :=
  let e := calculate_efficiency (decimate up 10) (decimate down 10)
  ⟨e, create3dSurfaceZ (decimate flow 10) (decimate temp 10) e, mean e, pyMax e, pyMin e⟩

/-- Forward fill (`DataFrame.fillna(method='ffill')`) of one column,
carrying the last seen value (`last`) into missing cells. -/
def ffillAux : Option ℚ → List (Option ℚ) → List (Option ℚ)
  | _, [] => []
  | last, none :: xs => last :: ffillAux last xs
  | _, some v :: xs => some v :: ffillAux (some v) xs

/-- Forward fill of one column (nothing seen yet at the start). -/
def ffill (l : List (Option ℚ)) : List (Option ℚ) := ffillAux none l

/-- Backward fill (`DataFrame.fillna(method='bfill')`): forward fill of the
reversed column. -/
def bfill (l : List (Option ℚ)) : List (Option ℚ) := (ffillAux none l.reverse).reverse

/-- Final `fillna(0)`: any still-missing cell becomes `0`. -/
def fillZero (l : List (Option ℚ)) : List ℚ := l.map (fun o => o.getD 0)

/-- `Series.clip(lower=0)` on the six pollutant columns. -/
def clipNeg (l : List ℚ) : List ℚ := l.map (fun v => qmax v 0)

/-- Model of `preprocess_data` (`app.py` lines 106-123) on one pollutant
concentration column: `ffill`, then `bfill`, then `fillna(0)`, then clip
negatives to `0`. -/
def preprocessColumn (l : List (Option ℚ)) : List ℚ := clipNeg (fillZero (bfill (ffill l)))

/-- Modelled from the spec: the `ε` constant of the `nearest-idw` policy
(spec §4.3, "e.g. 1e-8"); the `nearest-idw` interpolation variant is not
present in `app.py` (which only uses `method='linear'`). -/
noncomputable def idwEps : ℝ := 1 / 100000000

/-- A scatter point for the inverse-distance-weighting model. -/
structure IdwPoint where
  x : ℝ
  y : ℝ
  z : ℝ

/-- Modelled from the spec: the weight `w_k = 1/(distance + ε)` of scatter
point `p` for the grid cell `(gx, gy)` (spec §4.3, nearest-idw). -/
noncomputable def idwWeight (gx gy : ℝ) (p : IdwPoint) : ℝ :=
  1 / (Real.sqrt ((gx - p.x) ^ 2 + (gy - p.y) ^ 2) + idwEps)

/-- Modelled from the spec: `Σ w_k` over the scatter points. -/
noncomputable def idwWeightSum (pts : List IdwPoint) (gx gy : ℝ) : ℝ :=
  (pts.map (idwWeight gx gy)).sum

/-- Modelled from the spec: `Σ (z_k * w_k)` over the scatter points. -/
noncomputable def idwNumerator (pts : List IdwPoint) (gx gy : ℝ) : ℝ :=
  (pts.map (fun p => p.z * idwWeight gx gy p)).sum

/-- Modelled from the spec: the `nearest-idw` estimate
`z = Σ (z_k * w_k) / Σ w_k` at the grid cell `(gx, gy)` (spec §4.3). -/
noncomputable def idwValue (pts : List IdwPoint) (gx gy : ℝ) : ℝ :=
  idwNumerator pts gx gy / idwWeightSum pts gx gy

/-! ## Theorems -/

theorem qmax_eq_max (a b : ℚ) : qmax a b = max a b := by
  unfold qmax
  split
  · exact (max_eq_right (by assumption)).symm
  · exact (max_eq_left (le_of_not_le (by assumption))).symm

theorem qmin_eq_min (a b : ℚ) : qmin a b = min a b := by
  unfold qmin
  split
  · exact (min_eq_left (by assumption)).symm
  · exact (min_eq_right (le_of_not_le (by assumption))).symm

/-- Index-wise characterisation of `List.zip`. -/
theorem zip_getElem? {α β : Type} : ∀ (l1 : List α) (l2 : List β) (i : ℕ) (a : α) (b : β),
    l1[i]? = some a → l2[i]? = some b → (l1.zip l2)[i]? = some (a, b) := by
  intro l1
  induction l1 with
  | nil => intro l2 i a b h1 _; simp at h1
  | cons x xs ih =>
    intro l2 i a b h1 h2
    cases l2 with
    | nil => simp at h2
    | cons y ys =>
      cases i with
      | zero =>
        simp at h1 h2
        simp [List.zip_cons_cons, h1, h2]
      | succ j =>
        simp at h1 h2
        simpa [List.zip_cons_cons] using ih ys j a b h1 h2

theorem clip_zero : clip 0 100 0 = 0 := by decide

/-- C1: for equal-length inputs, `calculate_efficiency` has the inputs'
length and, index-wise, yields the clamped ratio on valid samples
(`upstream > 0` and `downstream ≥ 0`) and exactly `0` otherwise. -/
theorem calculate_efficiency_spec (up down : List ℚ) (h : up.length = down.length) :
    (calculate_efficiency up down).length = up.length ∧
    ∀ (i : ℕ) (u d : ℚ), up[i]? = some u → down[i]? = some d →
      (calculate_efficiency up down)[i]? =
        some (if 0 < u ∧ 0 ≤ d then clip 0 100 (rawEff u d) else 0) := by
  constructor
  · simp [calculate_efficiency, List.length_zip, h]
  · intro i u d hu hd
    have hz := zip_getElem? up down i u d hu hd
    simp only [calculate_efficiency, List.getElem?_map, hz, Option.map_some]
    by_cases hc : 0 < u ∧ 0 ≤ d
    · simp [hc]
    · simp [hc, clip_zero]

/-- Witness for C1 at a concrete input. -/
theorem calculate_efficiency_spec_witness :
    (calculate_efficiency [100, 2] [50, -1])[1]? =
      some (if 0 < (2:ℚ) ∧ 0 ≤ (-1:ℚ) then clip 0 100 (rawEff 2 (-1)) else 0) :=
  (calculate_efficiency_spec [100, 2] [50, -1] (by decide)).2 1 2 (-1) (by decide) (by decide)

/-- C7: `calculate_efficiency` is a total function (no exception for any
input: the division is only taken under the `valid_mask`), and every
position whose ratio would be undefined (`upstream ≤ 0` or
`downstream < 0`) is resolved to exactly `0`. -/
theorem calculate_efficiency_total_and_zero (up down : List ℚ) :
    (calculate_efficiency up down).length = min up.length down.length ∧
    ∀ (i : ℕ) (u d : ℚ), up[i]? = some u → down[i]? = some d → (u ≤ 0 ∨ d < 0) →
      (calculate_efficiency up down)[i]? = some 0 := by
  constructor
  · simp [calculate_efficiency, List.length_zip]
  · intro i u d hu hd hbad
    have hz := zip_getElem? up down i u d hu hd
    have hc : ¬ (0 < u ∧ 0 ≤ d) := by
      rcases hbad with h1 | h2
      · intro hx; exact absurd hx.1 (not_lt.mpr h1)
      · intro hx; exact absurd hx.2 (not_le.mpr h2)
    simp [calculate_efficiency, List.getElem?_map, hz, hc, clip_zero]

/-- Witness for C7 at a concrete input (zero upstream). -/
theorem calculate_efficiency_total_and_zero_witness :
    (calculate_efficiency [0] [10])[0]? = some 0 :=
  (calculate_efficiency_total_and_zero [0] [10]).2 0 0 10 (by decide) (by decide)
    (Or.inl (by norm_num))

/-- C9: the concrete values the spec enumerates: `computeEfficiency(100,0) = 100`,
`computeEfficiency(100,100) = 0`, `computeEfficiency(100,150) = 0` (clamped),
and the three-sample CO table `up = [100,100,0]`, `down = [20,50,10]`
yields `[80, 50, 0]`. -/
theorem calculate_efficiency_examples :
    calculate_efficiency [100] [0] = [100] ∧
    calculate_efficiency [100] [100] = [0] ∧
    calculate_efficiency [100] [150] = [0] ∧
    calculate_efficiency [100, 100, 0] [20, 50, 10] = [80, 50, 0] := by
  refine ⟨?_, ?_, ?_, ?_⟩ <;>
    norm_num [calculate_efficiency, clip, qmin, qmax, rawEff]

/-- `decimateAux k l c` picks out exactly the elements of `l` at indices
`c + i * k`. -/
theorem decimateAux_getElem? {α : Type} (k : ℕ) (hk : 1 ≤ k) :
    ∀ (l : List α) (c i : ℕ), (decimateAux k l c)[i]? = l[c + i * k]? := by
  intro l
  induction l with
  | nil => intro c i; simp [decimateAux]
  | cons x xs ih =>
    intro c i
    cases c with
    | zero =>
      cases i with
      | zero => simp [decimateAux]
      | succ j =>
        have key : 0 + (j + 1) * k = ((k - 1) + j * k) + 1 := by
          rw [Nat.succ_mul]; omega
        rw [key]
        simpa [decimateAux] using ih (k - 1) j
    | succ c' =>
      have key : (c' + 1) + i * k = (c' + i * k) + 1 := by omega
      rw [key]
      simpa [decimateAux] using ih c' i

/-- Length of `decimateAux`: the number of indices `c + i * k` below the
list's length, i.e. `⌈(length - c) / k⌉`. -/
theorem decimateAux_length {α : Type} (k : ℕ) (hk : 1 ≤ k) :
    ∀ (l : List α) (c : ℕ), (decimateAux k l c).length = (l.length - c + k - 1) / k := by
  intro l
  induction l with
  | nil =>
    intro c
    simp only [decimateAux, List.length_nil]
    rw [Nat.div_eq_of_lt (by omega)]
  | cons x xs ih =>
    intro c
    cases c with
    | zero =>
      have h1 : xs.length + 1 - 0 + k - 1 = xs.length + k := by omega
      simp only [decimateAux, List.length_cons, ih (k - 1), h1]
      rw [Nat.add_div_right _ (by omega)]
      rcases le_or_lt (k - 1) xs.length with hge | hlt
      · have h2 : xs.length - (k - 1) + k - 1 = xs.length := by omega
        rw [h2]
      · have h2 : xs.length - (k - 1) + k - 1 = k - 1 := by omega
        rw [h2, Nat.div_eq_of_lt (by omega), Nat.div_eq_of_lt (by omega)]
    | succ c' =>
      have h1 : xs.length + 1 - (c' + 1) = xs.length - c' := by omega
      simp only [decimateAux, List.length_cons, ih c', h1]

/-- C4: `decimate` keeps every `k`-th sample starting at index 0 in the
original order: the result has length `⌈length/k⌉ = (length + k - 1) / k`,
its `i`-th element is the input's `i*k`-th element, a non-empty series with
`k ≥ length` decimates to exactly its first sample, and the empty series
decimates to the empty series. -/
theorem decimate_spec {α : Type} (l : List α) (k : ℕ) (hk : 1 ≤ k) :
    (decimate l k).length = (l.length + k - 1) / k ∧
    (∀ i : ℕ, (decimate l k)[i]? = l[i * k]?) ∧
    (∀ x xs, l = x :: xs → l.length ≤ k → decimate l k = [x]) ∧
    decimate ([] : List α) k = [] := by
  refine ⟨?_, ?_, ?_, rfl⟩
  · rw [decimate, decimateAux_length k hk l 0]
    congr 1
  · intro i
    simpa using decimateAux_getElem? k hk l 0 i
  · intro x xs hcons hlen
    have hlen1 : (decimate l k).length = 1 := by
      rw [decimate, decimateAux_length k hk l 0]
      have hpos : 1 ≤ l.length := by rw [hcons]; simp
      have hm : l.length - 0 + k - 1 = (l.length - 1) + k := by omega
      rw [hm, Nat.add_div_right _ (by omega), Nat.div_eq_of_lt (by omega)]
    obtain ⟨a, ha⟩ := List.length_eq_one.mp hlen1
    have h0 : (decimate l k)[0]? = l[0]? := by
      simpa using decimateAux_getElem? k hk l 0 0
    rw [ha, hcons] at h0
    simp at h0
    rw [ha, h0]

/-- Witness for C4 at a concrete input (`stride 2` on a 5-element list). -/
theorem decimate_spec_witness :
    (decimate [(1:ℚ), 2, 3, 4, 5] 2)[1]? = [(1:ℚ), 2, 3, 4, 5][1 * 2]? :=
  (decimate_spec [(1:ℚ), 2, 3, 4, 5] 2 (by decide)).2.1 1

theorem foldl_qmin_le : ∀ (xs : List ℚ) (a : ℚ), xs.foldl qmin a ≤ a := by
  intro xs
  induction xs with
  | nil => intro a; simp
  | cons y ys ih =>
    intro a
    calc (y :: ys).foldl qmin a = ys.foldl qmin (qmin a y) := by simp
    _ ≤ qmin a y := ih (qmin a y)
    _ ≤ a := by rw [qmin_eq_min]; exact min_le_left a y

theorem foldl_qmin_le_mem : ∀ (xs : List ℚ) (a v : ℚ), v ∈ xs → xs.foldl qmin a ≤ v := by
  intro xs
  induction xs with
  | nil => intro a v hv; simp at hv
  | cons y ys ih =>
    intro a v hv
    rcases List.mem_cons.mp hv with heq | hmem
    · subst heq
      calc (v :: ys).foldl qmin a = ys.foldl qmin (qmin a v) := by simp
      _ ≤ qmin a v := foldl_qmin_le ys (qmin a v)
      _ ≤ v := by rw [qmin_eq_min]; exact min_le_right a v
    · simpa using ih (qmin a y) v hmem

theorem foldl_qmin_mem : ∀ (xs : List ℚ) (a : ℚ), xs.foldl qmin a = a ∨ xs.foldl qmin a ∈ xs := by
  intro xs
  induction xs with
  | nil => intro a; left; rfl
  | cons y ys ih =>
    intro a
    have step : (y :: ys).foldl qmin a = ys.foldl qmin (qmin a y) := by simp
    rcases ih (qmin a y) with heq | hmem
    · rw [step, heq]
      unfold qmin
      split
      · left; rfl
      · right; exact List.mem_cons_self y ys
    · right
      rw [step]
      exact List.mem_cons_of_mem y hmem

theorem foldl_qmax_ge : ∀ (xs : List ℚ) (a : ℚ), a ≤ xs.foldl qmax a := by
  intro xs
  induction xs with
  | nil => intro a; simp
  | cons y ys ih =>
    intro a
    calc a ≤ qmax a y := by rw [qmax_eq_max]; exact le_max_left a y
    _ ≤ ys.foldl qmax (qmax a y) := ih (qmax a y)
    _ = (y :: ys).foldl qmax a := by simp

theorem foldl_qmax_ge_mem : ∀ (xs : List ℚ) (a v : ℚ), v ∈ xs → v ≤ xs.foldl qmax a := by
  intro xs
  induction xs with
  | nil => intro a v hv; simp at hv
  | cons y ys ih =>
    intro a v hv
    rcases List.mem_cons.mp hv with heq | hmem
    · subst heq
      calc v ≤ qmax a v := by rw [qmax_eq_max]; exact le_max_right a v
      _ ≤ ys.foldl qmax (qmax a v) := foldl_qmax_ge ys (qmax a v)
      _ = (v :: ys).foldl qmax a := by simp
    · simpa using ih (qmax a y) v hmem

theorem foldl_qmax_mem : ∀ (xs : List ℚ) (a : ℚ), xs.foldl qmax a = a ∨ xs.foldl qmax a ∈ xs := by
  intro xs
  induction xs with
  | nil => intro a; left; rfl
  | cons y ys ih =>
    intro a
    have step : (y :: ys).foldl qmax a = ys.foldl qmax (qmax a y) := by simp
    rcases ih (qmax a y) with heq | hmem
    · rw [step, heq]
      unfold qmax
      split
      · right; exact List.mem_cons_self y ys
      · left; rfl
    · right
      rw [step]
      exact List.mem_cons_of_mem y hmem

/-- `pyMin` bounds every element from below. -/
theorem pyMin_le {l : List ℚ} {v : ℚ} (hv : v ∈ l) : pyMin l ≤ v := by
  cases l with
  | nil => simp at hv
  | cons x xs =>
    rcases List.mem_cons.mp hv with heq | hmem
    · subst heq; exact foldl_qmin_le xs v
    · exact foldl_qmin_le_mem xs x v hmem

/-- `pyMax` bounds every element from above. -/
theorem le_pyMax {l : List ℚ} {v : ℚ} (hv : v ∈ l) : v ≤ pyMax l := by
  cases l with
  | nil => simp at hv
  | cons x xs =>
    rcases List.mem_cons.mp hv with heq | hmem
    · subst heq; exact foldl_qmax_ge xs v
    · exact foldl_qmax_ge_mem xs x v hmem

/-- On a non-empty list the minimum is attained. -/
theorem pyMin_mem {l : List ℚ} (hl : l ≠ []) : pyMin l ∈ l := by
  cases l with
  | nil => exact absurd rfl hl
  | cons x xs =>
    rcases foldl_qmin_mem xs x with heq | hmem
    · rw [pyMin, heq]; exact List.mem_cons_self x xs
    · exact List.mem_cons_of_mem x hmem

/-- On a non-empty list the maximum is attained. -/
theorem pyMax_mem {l : List ℚ} (hl : l ≠ []) : pyMax l ∈ l := by
  cases l with
  | nil => exact absurd rfl hl
  | cons x xs =>
    rcases foldl_qmax_mem xs x with heq | hmem
    · rw [pyMax, heq]; exact List.mem_cons_self x xs
    · exact List.mem_cons_of_mem x hmem

theorem pyMin_le_pyMax {l : List ℚ} (hl : l ≠ []) : pyMin l ≤ pyMax l :=
  le_pyMax (pyMin_mem hl)

/-- Every interpolation method builds the same grid axis. -/
theorem interpolateAxis_eq (m : Method) (vals : List ℚ) :
    interpolateAxis m vals = gridAxis vals := by
  cases m <;> rfl

theorem linspace_getElem? (a b : ℚ) (n i : ℕ) (hi : i < n) :
    (linspace a b n)[i]? = some (a + (b - a) * i / ((n : ℚ) - 1)) := by
  rw [linspace, List.getElem?_map, List.getElem?_range hi]
  rfl

theorem mem_linspace {a b : ℚ} {n : ℕ} {v : ℚ} :
    v ∈ linspace a b n ↔ ∃ i : ℕ, i < n ∧ a + (b - a) * i / ((n : ℚ) - 1) = v := by
  rw [linspace]
  constructor
  · intro hv
    rcases List.mem_map.mp hv with ⟨i, hi, hval⟩
    exact ⟨i, List.mem_range.mp hi, hval⟩
  · rintro ⟨i, hi, hval⟩
    exact List.mem_map.mpr ⟨i, List.mem_range.mpr hi, hval⟩

/-- Elements of a `linspace` with `a ≤ b` lie between `a` and `b`. -/
theorem linspace_bounds {a b v : ℚ} (hab : a ≤ b) (hv : v ∈ linspace a b 50) :
    a ≤ v ∧ v ≤ b := by
  rcases mem_linspace.mp hv with ⟨i, hi, hval⟩
  have h0 : (0:ℚ) ≤ (i:ℚ) := Nat.cast_nonneg i
  have h1 : (i:ℚ) ≤ 49 := by
    have : i ≤ 49 := by omega
    exact_mod_cast this
  have hba : (0:ℚ) ≤ b - a := by linarith
  have hcast : ((50:ℕ):ℚ) - 1 = 49 := by norm_num
  rw [hcast] at hval
  have e1 : (0:ℚ) ≤ (b - a) * i / 49 := by positivity
  have e2 : (b - a) * i / 49 ≤ b - a := by
    rw [div_le_iff₀ (by norm_num : (0:ℚ) < 49)]
    nlinarith
  constructor <;> linarith

theorem left_mem_linspace (a b : ℚ) : a ∈ linspace a b 50 := by
  rw [mem_linspace]
  exact ⟨0, by norm_num⟩

theorem right_mem_linspace (a b : ℚ) : b ∈ linspace a b 50 := by
  rw [mem_linspace]
  refine ⟨49, by norm_num, ?_⟩
  have hcast : ((50:ℕ):ℚ) - 1 = 49 := by norm_num
  rw [hcast]
  have h49 : (b - a) * (49:ℕ) / 49 = b - a := by
    push_cast
    rw [mul_div_assoc]
    norm_num
  rw [h49]
  ring

/-- C2: for every non-empty value list and every interpolation method, the
grid axis consists of `gridSize` evenly spaced samples (consecutive
difference `(max - min)/49`), its minimum and maximum are exactly the
cloud's axis-wise minimum and maximum, and in the degenerate case
`min = max` every sample equals that single value (no division by the zero
span occurs: `linspace` divides by `gridSize - 1`, never by the span). -/
theorem interpolate_grid_bounds (m : Method) (x : List ℚ) (hx : x ≠ []) :
    (interpolateAxis m x).length = gridSize ∧
    pyMin (interpolateAxis m x) = pyMin x ∧
    pyMax (interpolateAxis m x) = pyMax x ∧
    (∀ (i : ℕ) (u v : ℚ), (interpolateAxis m x)[i]? = some u →
      (interpolateAxis m x)[i + 1]? = some v → v - u = (pyMax x - pyMin x) / 49) ∧
    (pyMin x = pyMax x → ∀ v ∈ interpolateAxis m x, v = pyMin x) := by
  rw [interpolateAxis_eq m x]
  have hab : pyMin x ≤ pyMax x := pyMin_le_pyMax hx
  have hg : gridSize = 50 := rfl
  have hlen : (gridAxis x).length = gridSize := by
    rw [gridAxis, linspace, List.length_map, List.length_range]
  have hne : gridAxis x ≠ [] := by
    intro hcon
    rw [hcon] at hlen
    simp [gridSize] at hlen
  refine ⟨hlen, ?_, ?_, ?_, ?_⟩
  · apply le_antisymm
    · exact pyMin_le (left_mem_linspace (pyMin x) (pyMax x))
    · exact (linspace_bounds hab (pyMin_mem hne)).1
  · apply le_antisymm
    · exact (linspace_bounds hab (pyMax_mem hne)).2
    · exact le_pyMax (right_mem_linspace (pyMin x) (pyMax x))
  · intro i u v hu hv
    have hi1 : i + 1 < 50 := by
      by_contra hcon
      have : (gridAxis x)[i + 1]? = none := by
        apply List.getElem?_eq_none
        rw [hlen]
        simp only [gridSize]
        omega
      rw [this] at hv
      exact Option.noConfusion hv
    have hi : i < 50 := by omega
    rw [gridAxis, hg, linspace_getElem? _ _ _ _ hi] at hu
    rw [gridAxis, hg, linspace_getElem? _ _ _ _ hi1] at hv
    have hu' := Option.some_injective _ hu
    have hv' := Option.some_injective _ hv
    rw [← hu', ← hv']
    have hcast : ((50:ℕ):ℚ) - 1 = 49 := by norm_num
    rw [hcast]
    push_cast
    ring
  · intro hdeg v hv
    rcases mem_linspace.mp hv with ⟨i, _, hval⟩
    rw [← hdeg] at hval
    rw [← hval]
    simp

/-- Witness for C2 at a concrete input. -/
theorem interpolate_grid_bounds_witness :
    pyMin (interpolateAxis Method.linear [3, 1, 2]) = pyMin [3, 1, 2] :=
  (interpolate_grid_bounds Method.linear [3, 1, 2] (by decide)).2.1

/-- Membership in the triple list is componentwise membership. -/
theorem mem_triples {α : Type} {l : List α} {t : α × α × α} :
    t ∈ triples l ↔ t.1 ∈ l ∧ t.2.1 ∈ l ∧ t.2.2 ∈ l := by
  constructor
  · intro h
    rcases List.mem_flatMap.mp h with ⟨a, ha, h2⟩
    rcases List.mem_flatMap.mp h2 with ⟨b, hb, h3⟩
    rcases List.mem_map.mp h3 with ⟨c, hc, heq⟩
    rw [← heq]
    exact ⟨ha, hb, hc⟩
  · rcases t with ⟨a, b, c⟩
    rintro ⟨ha, hb, hc⟩
    exact List.mem_flatMap.mpr ⟨a, ha, List.mem_flatMap.mpr ⟨b, hb, List.mem_map.mpr ⟨c, hc, rfl⟩⟩⟩

/-- C5: whenever `griddata` with `method='linear'` and `fill_value=0`
produces a grid (the cloud admits a triangulation), every grid cell
outside the convex hull of the scatter points carries the value `0`
(rather than being undefined), so the produced grid is fully defined. -/
theorem griddata_linear_fill_outside_hull (pts : List P3) (cells : List (ℚ × ℚ))
    (zs : List ℚ) (i : ℕ) (c : ℚ × ℚ)
    (hok : griddataLinear pts cells 0 = Except.ok zs)
    (hc : cells[i]? = some c)
    (hout : inHull (pts.map P3.xy) c = false) :
    zs[i]? = some 0 := by
  rw [griddataLinear] at hok
  by_cases htri : hasTriangulation (pts.map P3.xy) = true
  · rw [if_pos htri] at hok
    have hzs : zs = cells.map (cellValue pts 0) := by
      injection hok with h
      exact h.symm
    subst hzs
    rw [List.getElem?_map, hc]
    show some (cellValue pts 0 c) = some 0
    have hnone : findTriangle pts c = none := by
      cases hfind : findTriangle pts c with
      | none => rfl
      | some t =>
        exfalso
        have hpred := List.find?_some hfind
        have hmem := List.mem_of_find?_eq_some hfind
        rw [Bool.and_eq_true] at hpred
        have hmem3 := mem_triples.mp hmem
        have hmemMap : (t.1.xy, t.2.1.xy, t.2.2.xy) ∈ triples (pts.map P3.xy) :=
          mem_triples.mpr ⟨List.mem_map_of_mem P3.xy hmem3.1,
            List.mem_map_of_mem P3.xy hmem3.2.1, List.mem_map_of_mem P3.xy hmem3.2.2⟩
        have hhull : inHull (pts.map P3.xy) c = true := by
          rw [inHull, List.any_eq_true]
          exact ⟨(t.1.xy, t.2.1.xy, t.2.2.xy), hmemMap, hpred.2⟩
        rw [hout] at hhull
        exact Bool.noConfusion hhull
    simp [cellValue, hnone]
  · rw [if_neg htri] at hok
    exact Except.noConfusion hok

/-- Witness for C5 at a concrete input: the triangle `(0,0), (1,0), (0,1)`
interpolated on the single far-away cell `(5,5)`. -/
theorem griddata_linear_fill_outside_hull_witness :
    ([(0:ℚ)])[0]? = some 0 :=
  griddata_linear_fill_outside_hull [⟨0, 0, 1⟩, ⟨1, 0, 2⟩, ⟨0, 1, 3⟩] [(5, 5)] [0] 0 (5, 5)
    (by norm_num [griddataLinear, hasTriangulation, triples, cross, P3.xy, cellValue,
      findTriangle, inTriangle, sameSide, inBbox])
    (by norm_num)
    (by norm_num [inHull, triples, inTriangle, sameSide, inBbox, cross, P3.xy])

/-- C3 counterexample: a degenerate geometry (two collinear scatter
points, shared by all three pollutants since `main` passes the same
flow/temperature columns to every `create_3d_surface` call) makes the
whole run abort with the single file-level error: `mainProcess` returns
`Except.error ()` and produces no output for any pollutant, so the
processing of the other pollutants does not continue. -/
theorem mainProcess_degenerate_counterexample :
    mainProcess [0, 1] [0, 0] [10, 20] [30, 40] [50, 60] = Except.error () := by
  have h1 : create3dSurfaceZ [0, 1] [0, 0] [10, 20] = Except.error () := by
    norm_num [create3dSurfaceZ, griddataLinear, hasTriangulation, mkCloud, triples, cross,
      P3.xy]
  unfold mainProcess
  rw [h1]
  rfl

/-- C3 as amended: when the cloud admits no triangulation (fewer than 3
non-collinear distinct points), `create_3d_surface` produces no grid and
the condition surfaces as the caught, reported file-level error — but
that error aborts the processing of the remaining pollutants instead of
letting them continue. -/
theorem mainProcess_degenerate_aborts (flow temp e1 e2 e3 : List ℚ) :
    (hasTriangulation ((mkCloud flow temp e1).map P3.xy) = false →
      create3dSurfaceZ flow temp e1 = Except.error ()) ∧
    (create3dSurfaceZ flow temp e1 = Except.error () →
      mainProcess flow temp e1 e2 e3 = Except.error ()) := by
  constructor
  · intro h
    rw [create3dSurfaceZ, griddataLinear, h]
    rfl
  · intro h
    unfold mainProcess
    rw [h]
    rfl

/-- Witness for the amended C3 at a concrete input. -/
theorem mainProcess_degenerate_aborts_witness :
    mainProcess [0, 2] [1, 1] [5, 6] [7, 8] [9, 10] = Except.error () :=
  (mainProcess_degenerate_aborts [0, 2] [1, 1] [5, 6] [7, 8] [9, 10]).2
    ((mainProcess_degenerate_aborts [0, 2] [1, 1] [5, 6] [7, 8] [9, 10]).1
      (by norm_num [hasTriangulation, mkCloud, triples, cross, P3.xy]))

/-- C8 as amended: in `main`, the displayed mean/max/min statistics are
computed from the same decimated efficiency series that also yields the
EfficiencySeries and the Grid — not from the full (undecimated)
SampleSeries. -/
theorem mainPollutant_stats_over_decimated (flow temp up down : List ℚ) :
    (mainPollutant flow temp up down).eff =
      calculate_efficiency (decimate up 10) (decimate down 10) ∧
    (mainPollutant flow temp up down).grid =
      create3dSurfaceZ (decimate flow 10) (decimate temp 10)
        ((mainPollutant flow temp up down).eff) ∧
    (mainPollutant flow temp up down).meanStat = mean ((mainPollutant flow temp up down).eff) ∧
    (mainPollutant flow temp up down).maxStat = pyMax ((mainPollutant flow temp up down).eff) ∧
    (mainPollutant flow temp up down).minStat = pyMin ((mainPollutant flow temp up down).eff) :=
  ⟨rfl, rfl, rfl, rfl, rfl⟩

/-- C8 counterexample: on an 11-sample table the displayed mean (computed
after decimation, over samples 0 and 10) differs from the mean efficiency
of the full SampleSeries, so the reported statistics are not computed over
the full series. -/
theorem mainPollutant_stats_counterexample :
    (mainPollutant [100, 100, 100, 100, 100, 100, 100, 100, 100, 100, 100]
        [100, 100, 100, 100, 100, 100, 100, 100, 100, 100, 100]
        [100, 100, 100, 100, 100, 100, 100, 100, 100, 100, 100]
        [0, 100, 100, 100, 100, 100, 100, 100, 100, 100, 100]).meanStat ≠
      mean (calculate_efficiency
        [100, 100, 100, 100, 100, 100, 100, 100, 100, 100, 100]
        [0, 100, 100, 100, 100, 100, 100, 100, 100, 100, 100]) := by
  norm_num [mainPollutant, decimate, decimateAux, calculate_efficiency, clip, qmin, qmax,
    rawEff, mean]

theorem ffillAux_length : ∀ (l : List (Option ℚ)) (last : Option ℚ),
    (ffillAux last l).length = l.length := by
  intro l
  induction l with
  | nil => intro last; rfl
  | cons o xs ih =>
    intro last
    cases o with
    | none => simp [ffillAux, ih]
    | some v => simp [ffillAux, ih]

theorem clip_eq_zero_imp (r : ℚ) (h : clip 0 100 r = 0) : r ≤ 0 := by
  by_contra hpos
  push_neg at hpos
  rw [clip, qmin_eq_min, qmax_eq_max] at h
  rw [max_eq_right (le_of_lt hpos)] at h
  have h2 : 0 < min 100 r := lt_min (by norm_num) hpos
  rw [h] at h2
  exact lt_irrefl 0 h2

/-- C10: after preprocessing, a pollutant concentration column keeps its
length (no dropped samples), contains no missing values (the result type
carries plain rationals) and only non-negative values; consequently, when
every downstream value is non-negative, a `0` efficiency can only arise
from `upstream ≤ 0` or from clamping a non-positive raw ratio — the
`downstream < 0` disqualification branch never fires. -/
theorem preprocess_nonneg_no_missing (col : List (Option ℚ)) :
    (preprocessColumn col).length = col.length ∧
    (∀ v ∈ preprocessColumn col, 0 ≤ v) ∧
    (∀ (up : List ℚ) (i : ℕ) (u d : ℚ), up[i]? = some u →
      (preprocessColumn col)[i]? = some d →
        (calculate_efficiency up (preprocessColumn col))[i]? = some 0 →
          u ≤ 0 ∨ rawEff u d ≤ 0) := by
  have hnn : ∀ v ∈ preprocessColumn col, 0 ≤ v := by
    intro v hv
    rcases List.mem_map.mp hv with ⟨w, _, hw⟩
    rw [← hw, qmax_eq_max]
    exact le_max_right w 0
  refine ⟨?_, hnn, ?_⟩
  · simp [preprocessColumn, clipNeg, fillZero, bfill, ffill, ffillAux_length]
  · intro up i u d hu hd hzero
    set down := preprocessColumn col with hdowndef
    have hdmem : d ∈ down := List.getElem?_mem hd
    have hd0 : 0 ≤ d := hnn d hdmem
    rcases le_or_lt u 0 with hu0 | hu0
    · exact Or.inl hu0
    · right
      have hz := zip_getElem? up down i u d hu hd
      rw [calculate_efficiency, List.getElem?_map, hz] at hzero
      have hval : clip 0 100 (if 0 < u ∧ 0 ≤ d then rawEff u d else 0) = 0 := by
        simpa using hzero
      rw [if_pos ⟨hu0, hd0⟩] at hval
      exact clip_eq_zero_imp _ hval

/-- Witness for C10 at a concrete input (`upstream = 0` forces efficiency
`0` through the `upstream ≤ 0` branch). -/
theorem preprocess_nonneg_no_missing_witness :
    (0:ℚ) ≤ 0 ∨ rawEff 0 10 ≤ 0 :=
  (preprocess_nonneg_no_missing [some 10]).2.2 [0] 0 0 10
    (by decide) (by decide) (by decide)

theorem idwWeight_pos (gx gy : ℝ) (p : IdwPoint) : 0 < idwWeight gx gy p := by
  rw [idwWeight]
  apply one_div_pos.mpr
  apply add_pos_of_nonneg_of_pos (Real.sqrt_nonneg _)
  rw [idwEps]
  norm_num

/-- C6 (modelled from the spec; `nearest-idw` is absent from `app.py`):
the inverse-distance-weighted estimate is defined at every grid cell of
any non-empty cloud — the weight sum is strictly positive, so the
division never divides by zero (no NaN, no holes) — the value is exactly
`Σ (z_k * w_k) / Σ w_k`, and on a single-point cloud every grid cell
equals that point's `z`. -/
theorem idw_defined_everywhere (pts : List IdwPoint) (gx gy : ℝ) :
    (pts ≠ [] → 0 < idwWeightSum pts gx gy) ∧
    idwValue pts gx gy = idwNumerator pts gx gy / idwWeightSum pts gx gy ∧
    (∀ p : IdwPoint, idwValue [p] gx gy = p.z) := by
  refine ⟨?_, rfl, ?_⟩
  · intro hne
    rw [idwWeightSum]
    apply List.sum_pos
    · intro w hw
      rcases List.mem_map.mp hw with ⟨p, _, hp⟩
      rw [← hp]
      exact idwWeight_pos gx gy p
    · simpa using hne
  · intro p
    have hw : idwWeight gx gy p ≠ 0 := ne_of_gt (idwWeight_pos gx gy p)
    rw [idwValue, idwNumerator, idwWeightSum]
    simp only [List.map_cons, List.map_nil, List.sum_cons, List.sum_nil, add_zero]
    rw [mul_div_assoc, div_self hw, mul_one]

/-- Witness for C6 at a concrete input. -/
theorem idw_defined_everywhere_witness :
    0 < idwWeightSum [⟨0, 0, 5⟩] 0 0 :=
  (idw_defined_everywhere [⟨0, 0, 5⟩] 0 0).1 (by simp)

end VehicleEmission
